import Mathlib

/-!
Verification of the configuration-resolution layer in `flake8/option_parser.py`.

The development shallowly embeds the source module:
* `Flake8Option` / `mkOption` embed `Option.__init__` (possible Python `None`
  arguments become `Option String`, the `ValueError` raise becomes `Except`);
* `RawConfigParser` embeds the external INI parser's section/key/value store
  (the text-level INI grammar is out of scope per the spec; an existing file is
  either `malformed` or an already-structured store);
* `ConfigFileFinder` embeds the locator (absolute paths are modelled as their
  lists of components, `os.path.split` / `os.path.join` / `os.path.abspath`
  act on those components);
* `MergedConfigParser` embeds the merge engine; the results of
  `config_finder.local_configs()` / `config_finder.user_config()` (which are
  deterministic for a fixed filesystem) are carried as fields.

Python dictionaries are embedded as insertion-ordered association lists, and
Python exceptions as the `PyError` error type of `Except`.
-/

/-- Python exceptions raised (directly or by collaborators) in the module. -/
inductive PyError where
  | valueError (msg : String)
  | attributeError (msg : String)
  | parsingError (file : String)
  | noSectionError (section_ : String)
  | noOptionError (section_ : String) (key : String)
  deriving DecidableEq, Repr

/-- Values a config option can carry after coercion: raw string (`config.get`),
integer (`config.getint`), boolean (`config.getboolean`), or a comma-separated
list of strings. -/
inductive ConfigValue where
  | str (s : String)
  | int (n : Int)
  | bool (b : Bool)
  | strList (l : List String)
  deriving DecidableEq, Repr

/-- Python truthiness of an optional string: `None` and `""` are falsy. -/
def pyTruthy : Option String → Bool
  | none => false
  | some s => s ≠ ""

/-- Map `'-'` to `'_'`, leaving other characters; the effect of the source's
`.replace('-', '_')` on each character. -/
def dashToUnderscore (c : Char) : Char := if c = '-' then '_' else c

/-- Python's `str.strip('-')` on a character list: drop `'-'` from both ends. -/
def pyStripDashes (l : List Char) : List Char :=
  ((l.dropWhile (· = '-')).reverse.dropWhile (· = '-')).reverse

/-- The source's derivation `long_option_name.strip('-').replace('-', '_')`
(line 71). -/
def config_name_of (s : String) : String :=
  ((pyStripDashes s.toList).map dashToUnderscore).asString

/-- The spec's derivation of a config key: the long flag name with exactly the
LEADING dashes stripped and every remaining dash replaced by an underscore.
Stated from the spec's words, to be compared with `config_name_of`. -/
def specConfigKey (s : String) : String :=
  ((s.toList.dropWhile (· = '-')).map dashToUnderscore).asString

/-- One recognized option (`Option` in the source; renamed as Lean reserves
`Option`). `option_kwargs` entries never read by this subsystem (`callback`,
`nargs`, `const`, `choices`, `help`, `metavar`) are omitted; `config_name` is
`none` when `Option.__init__` never set the attribute. -/
structure Flake8Option where
  short_option_name : Option String
  long_option_name : Option String
  action : Option String
  default : Option String
  type : Option String
  dest : Option String
  parse_from_config : Bool
  comma_separated_list : Bool
  config_name : Option String
  deriving DecidableEq, Repr

/-- `Option.__init__` (lines 17-71): raises `ValueError` when
`parse_from_config` is set and `long_option_name` is falsy (Python `None` or
`""`); otherwise constructs the option, setting the `config_name` attribute
only in the `parse_from_config` branch. -/
def mkOption (short_option_name long_option_name : Option String)
    (action default type dest : Option String)
    (parse_from_config comma_separated_list : Bool) :
    Except PyError Flake8Option :=
  if parse_from_config then
    if pyTruthy long_option_name = false then
      .error (.valueError
        "When specifying parse_from_config=True, a long_option_name must also be specified.")
    else
      .ok { short_option_name, long_option_name, action, default, type, dest,
            parse_from_config, comma_separated_list,
            config_name := some (config_name_of (long_option_name.getD "")) }
  else
    .ok { short_option_name, long_option_name, action, default, type, dest,
          parse_from_config, comma_separated_list, config_name := none }

/-- Registry of recognized options (`OptionManager`, lines 79-94): an
insertion-ordered list plus the config-key → option map, into which
`add_option` inserts config-eligible options with last-write-wins. -/
structure OptionManager where
  program_name : Option String
  options : List Flake8Option
  config_options_dict : List (String × Flake8Option)
  deriving Repr

/-- Insert into an insertion-ordered association list, replacing in place when
the key is present (Python `d[k] = v`). -/
def dictSet (d : List (String × Flake8Option)) (k : String) (v : Flake8Option) :
    List (String × Flake8Option) :=
  if (d.lookup k).isSome then
    d.map (fun kv => if kv.1 = k then (k, v) else kv)
  else d ++ [(k, v)]

/-- `OptionManager.add_option` (lines 89-94). -/
def OptionManager.add_option (m : OptionManager)
    (short_option_name long_option_name : Option String)
    (action default type dest : Option String)
    (parse_from_config comma_separated_list : Bool) :
    Except PyError OptionManager := do
  let option ← mkOption short_option_name long_option_name action default type
    dest parse_from_config comma_separated_list
  .ok { m with
        options := m.options ++ [option],
        config_options_dict :=
          if option.parse_from_config then
            dictSet m.config_options_dict (option.config_name.getD "") option
          else m.config_options_dict }

/-! ## Path model

A POSIX absolute path is modelled as the list of its components (the root `/`
is `[]`); `renderAbs` renders it back. `os.path.abspath` is parameterised by
the current working directory's components. -/

/-- Split a character list on a separator character, accumulating the current
piece in reverse. -/
def splitCharsOn (sep : Char) (acc : List Char) : List Char → List String
  | [] => [acc.reverse.asString]
  | c :: rest =>
    if c = sep then acc.reverse.asString :: splitCharsOn sep [] rest
    else splitCharsOn sep (c :: acc) rest

/-- Components of a path string: `os.path`'s `/`-separated pieces, empty
pieces dropped (repeated separators collapse, as `normpath` does). -/
def splitPath (s : String) : List String :=
  (splitCharsOn '/' [] s.toList).filter (· ≠ "")

/-- `os.path.normpath`'s component normalisation for an absolute path:
drop `.`, let `..` pop the previous component (popping at the root stays at
the root). -/
def normComponents (cs : List String) : List String :=
  cs.foldl (fun acc c =>
    if c = "." then acc
    else if c = ".." then acc.dropLast
    else acc ++ [c]) []

/-- Render an absolute path from its components (`[]` is the root `/`). -/
def renderAbs (cs : List String) : String :=
  if cs = [] then "/" else "/" ++ String.intercalate "/" cs

/-- `os.path.abspath` as components: normalise, joining the current working
directory (given as components) when the path is relative. -/
def abspathComps (cwd : List String) (p : String) : List String :=
  if p.toList.head? = some '/' then normComponents (splitPath p)
  else normComponents (cwd ++ splitPath p)

/-- `os.path.abspath` as a string. -/
def abspath (cwd : List String) (p : String) : String :=
  renderAbs (abspathComps cwd p)

/-- Character-wise longest common initial run of two character lists. -/
def lcpChars : List Char → List Char → List Char
  | a :: as, b :: bs => if a = b then a :: lcpChars as bs else []
  | _, _ => []

/-- `os.path.commonprefix`: the longest common string prefix of the paths,
taken character by character (`""` for an empty list). -/
def commonPrefixStr (paths : List String) : String :=
  match paths with
  | [] => ""
  | p :: rest => (rest.foldl (fun acc q => lcpChars acc q.toList) p.toList).asString

/-- Component-wise longest common initial run of two component lists. -/
def lcpComponents : List String → List String → List String
  | a :: as, b :: bs => if a = b then a :: lcpComponents as bs else []
  | _, _ => []

/-- Stated from the spec's words, to be compared with the source's
`common_ancestor`: the longest shared path (directory) prefix of the input
paths, resolved to an absolute path — component-wise, not character-wise. -/
def specSharedDirAncestor (cwd : List String) (args : List String) : String :=
  match args.map (abspathComps cwd) with
  | [] => renderAbs cwd
  | c :: rest => renderAbs (rest.foldl lcpComponents c)

/-! ## Config file locator (`ConfigFileFinder`, lines 100-162) -/

/-- `ConfigFileFinder` state after `__init__` (lines 103-122). `parent` holds
the components of `os.path.abspath(os.path.commonprefix(args))`; `tail` the
same path as the string the while-loop tests for truthiness. -/
structure ConfigFileFinder where
  is_windows : Bool
  xdg_home : String
  program_config : String
  program_name : String
  project_filenames : List String
  parent : List String
  tail : String
  deriving Repr

/-- `ConfigFileFinder.__init__` (lines 103-122): `args` defaults to `["."]`
when falsy, and `parent = tail = abspath(commonprefix(args))`. -/
def mkConfigFileFinder (is_windows : Bool) (xdg_home : String)
    (cwd : List String) (program_name : String) (args : List String) :
    ConfigFileFinder :=
  let args' := if args = [] then ["."] else args
  let anc := abspathComps cwd (commonPrefixStr args')
  { is_windows, xdg_home,
    program_config := "." ++ program_name,
    program_name,
    project_filenames := ["setup.cfg", "tox.ini", "." ++ program_name],
    parent := anc,
    tail := renderAbs anc }

/-- The string the source stores in `self.parent` / `self.tail` (line 122). -/
def common_ancestor (cwd : List String) (args : List String) : String :=
  renderAbs (abspathComps cwd (commonPrefixStr (if args = [] then ["."] else args)))

/-- `os.path.split` on an absolute path in components: peel the last component
(`split('/') = ('/', '')` at the root, i.e. `([], "")`). -/
def splitAbs (p : List String) : List String × String :=
  match p.getLast? with
  | none => ([], "")
  | some c => (p.dropLast, c)

/-- `ConfigFileFinder.generate_possible_local_config_files` (lines 130-138):
while `tail` is truthy, yield each project filename against the current
`parent` directory, then `(parent, tail) = os.path.split(parent)`. Yields
(directory components, filename) pairs; the source renders each pair as
`os.path.abspath(os.path.join(parent, filename))`. -/
def genLocalConfigFiles (filenames : List String) (parent : List String)
    (tail : String) : List (List String × String) :=
  if tail = "" then []
  else
    filenames.map (fun f => (parent, f)) ++
      genLocalConfigFiles filenames (splitAbs parent).1 (splitAbs parent).2
termination_by parent.length + (if tail = "" then 0 else 1)
decreasing_by
  rename_i htail
  rcases h : parent.getLast? with _ | c
  · have hnil : parent = [] := List.getLast?_eq_none_iff.mp h
    subst hnil
    simp [splitAbs, htail]
  · have hne : parent ≠ [] := by
      intro hnil
      rw [hnil] at h
      simp at h
    have hpos : 0 < parent.length := List.length_pos.mpr hne
    by_cases hc : c = "" <;> simp [splitAbs, h, hc, htail] <;> omega

/-- `ConfigFileFinder.generate_possible_local_config_files` entry point. -/
def ConfigFileFinder.generate_possible_local_config_files
    (finder : ConfigFileFinder) : List (List String × String) :=
  genLocalConfigFiles finder.project_filenames finder.parent finder.tail

/-- `ConfigFileFinder.user_config_file` (lines 153-156). -/
def ConfigFileFinder.user_config_file (finder : ConfigFileFinder) : String :=
  if finder.is_windows then "~\\" ++ finder.program_config
  else finder.xdg_home ++ "/" ++ finder.program_name

/-- The ancestor chain of an absolute path's components: the path itself, then
each parent, down to and including the root `[]`. -/
def ancestorsOf (p : List String) : List (List String) :=
  if p = [] then [[]] else p :: ancestorsOf p.dropLast
termination_by p.length
decreasing_by
  rename_i hne
  have hpos : 0 < p.length := List.length_pos.mpr hne
  have hlen : p.dropLast.length = p.length - 1 := List.length_dropLast p
  omega

/-! ## Config loader (`ConfigFileFinder._read_config`, lines 124-128)

`configparser.RawConfigParser` is the external file-format collaborator: its
store is a section name → (key → raw string value) map, insertion-ordered.
`config.read(files)` ignores files it cannot open, raises a parsing error on a
file it can open but cannot parse, and merges the sections of each
successfully parsed file into the accumulated store, returning the list of
files actually read. -/

/-- The section/key/value store of a `configparser.RawConfigParser`. -/
structure RawConfigParser where
  sections : List (String × List (String × String))
  deriving DecidableEq, Repr

/-- The store of a freshly constructed `RawConfigParser()`. -/
def emptyRawConfigParser : RawConfigParser := ⟨[]⟩

/-- `config.has_section(name)`. -/
def RawConfigParser.has_section (c : RawConfigParser) (name : String) : Bool :=
  (c.sections.lookup name).isSome

/-- `config.options(section)`: the section's keys in order, or
`NoSectionError`. -/
def RawConfigParser.options (c : RawConfigParser) (name : String) :
    Except PyError (List String) :=
  match c.sections.lookup name with
  | none => .error (.noSectionError name)
  | some kvs => .ok (kvs.map (·.1))

/-- `config.get(section, key)`: the raw string value, or
`NoSectionError` / `NoOptionError`. -/
def RawConfigParser.get (c : RawConfigParser) (name key : String) :
    Except PyError ConfigValue :=
  match c.sections.lookup name with
  | none => .error (.noSectionError name)
  | some kvs =>
    match kvs.lookup key with
    | none => .error (.noOptionError name key)
    | some v => .ok (.str v)

/-- ASCII lowering of a character (Python `str.lower` on the values
`getboolean` accepts). -/
def charLower (c : Char) : Char :=
  if 'A' ≤ c ∧ c ≤ 'Z' then Char.ofNat (c.toNat + 32) else c

/-- `config.getint(section, key)`: parse the raw value as an integer, raising
`ValueError` otherwise. -/
def RawConfigParser.getint (c : RawConfigParser) (name key : String) :
    Except PyError ConfigValue := do
  let v ← c.get name key
  match v with
  | .str s =>
    match s.toInt? with
    | some n => .ok (.int n)
    | none => .error (.valueError ("invalid literal for int: " ++ s))
  | _ => .error (.valueError "not a string")

/-- `config.getboolean(section, key)`: accept `1/yes/true/on` and
`0/no/false/off` case-insensitively, raising `ValueError` otherwise. -/
def RawConfigParser.getboolean (c : RawConfigParser) (name key : String) :
    Except PyError ConfigValue := do
  let v ← c.get name key
  match v with
  | .str s =>
    let lowered := (s.toList.map charLower).asString
    if lowered ∈ ["1", "yes", "true", "on"] then .ok (.bool true)
    else if lowered ∈ ["0", "no", "false", "off"] then .ok (.bool false)
    else .error (.valueError ("Not a boolean: " ++ s))
  | _ => .error (.valueError "not a string")

/-- Set a key in a section's key/value list (replace in place, else append). -/
def setKV (kvs : List (String × String)) (k v : String) :
    List (String × String) :=
  if (kvs.lookup k).isSome then
    kvs.map (fun kv => if kv.1 = k then (k, v) else kv)
  else kvs ++ [(k, v)]

/-- Merge one parsed file's sections into the accumulated store (later files
override earlier values key by key). -/
def mergeSections (c : RawConfigParser)
    (file : List (String × List (String × String))) : RawConfigParser :=
  file.foldl (fun acc sec =>
    match acc.sections.lookup sec.1 with
    | none => ⟨acc.sections ++ [sec]⟩
    | some kvs =>
      ⟨acc.sections.map (fun s =>
        if s.1 = sec.1 then (sec.1, sec.2.foldl (fun ks kv => setKV ks kv.1 kv.2) kvs)
        else s)⟩) c

/-- What the filesystem holds at an existing path: a file the INI parser
rejects, or one it parses to a section/key/value store (the INI text grammar
itself is the external collaborator's concern and is out of scope). -/
inductive FileContent where
  | malformed
  | ini (sections : List (String × List (String × String)))
  deriving DecidableEq, Repr

/-- A filesystem: paths mapped to contents; absent paths cannot be opened. -/
abbrev FileSystem := List (String × FileContent)

/-- The loop inside `config.read(files)`: skip unopenable files, raise on a
parse failure, merge parsed sections and record the file as found. -/
def readFiles (fs : FileSystem) (config : RawConfigParser)
    (found : List String) : List String →
    Except PyError (RawConfigParser × List String)
  | [] => .ok (config, found)
  | f :: rest =>
    match fs.lookup f with
    | none => readFiles fs config found rest
    | some .malformed => .error (.parsingError f)
    | some (.ini secs) => readFiles fs (mergeSections config secs) (found ++ [f]) rest

/-- `ConfigFileFinder._read_config` (lines 124-128): a fresh parser, then
`config.read(files)`, returning the parser and the found files. -/
def _read_config (fs : FileSystem) (files : List String) :
    Except PyError (RawConfigParser × List String) :=
  readFiles fs emptyRawConfigParser [] files

/-! ## Merge engine (`MergedConfigParser`, lines 165-245) -/

/-- `MergedConfigParser.GETINT_METHODS`. -/
def GETINT_METHODS : List String := ["int", "count"]

/-- `MergedConfigParser.GETBOOL_METHODS`. -/
def GETBOOL_METHODS : List String := ["store_true", "store_false"]

/-- Python `x in {...}` for a nullable string (`None in {...}` is false). -/
def optMem (x : Option String) (l : List String) : Bool :=
  match x with
  | none => false
  | some s => s ∈ l

/-- Python `str.strip()` of one string: surrounding whitespace removed. -/
def stripWS (s : String) : String :=
  (((s.toList.dropWhile Char.isWhitespace).reverse.dropWhile
      Char.isWhitespace).reverse).asString

/-- Modelled from the spec: `utils.parse_comma_separated_list` lives in
`flake8/utils.py`, which is not under `src/`; per the spec it splits the
already-coerced string value on commas, trimming surrounding whitespace from
each element, producing an ordered sequence of strings (a non-string value
has no split method, so Python raises `AttributeError`). -/
def parse_comma_separated_list : ConfigValue → Except PyError ConfigValue
  | .str s => .ok (.strList ((splitCharsOn ',' [] s.toList).map stripWS))
  | _ => .error (.attributeError "object has no attribute split")

/-- `MergedConfigParser` state: the registry data it reads
(`option_manager.program_name`, `option_manager.config_options_dict`) and the
stores its `config_finder`'s `local_configs()` / `user_config()` calls
produce — those reads are deterministic for a fixed filesystem, so they are
carried as fields. -/
structure MergedConfigParser where
  program_name : String
  config_options : List (String × Flake8Option)
  local_config : RawConfigParser
  user_config : RawConfigParser
  deriving Repr

/-- The body of `_parse_config`'s for-loop (lines 184-205): for each key of
the GIVEN parser's section, skip unregistered keys, pick
`getint` / `getboolean` / `get` from the matched option's metadata, read the
value FROM THE LOCAL CONFIG `config` (the source's line 192 `method =
config.get` closes over the `local_configs()` result of line 177, not over
`config_parser`), apply the comma-split when requested, and accumulate. -/
def parseLoop (m : MergedConfigParser) (config : RawConfigParser) :
    List String → Except PyError (List (String × ConfigValue))
  | [] => .ok []
  | option_name :: rest =>
    match m.config_options.lookup option_name with
    | none => parseLoop m config rest
    | some option => do
      let value ←
        if optMem option.type GETINT_METHODS then
          config.getint m.program_name option_name
        else if optMem option.action GETBOOL_METHODS then
          config.getboolean m.program_name option_name
        else
          config.get m.program_name option_name
      let final_value ←
        if option.comma_separated_list then parse_comma_separated_list value
        else .ok value
      let tail ← parseLoop m config rest
      .ok ((option_name, final_value) :: tail)

/-- `MergedConfigParser._parse_config` (lines 176-205): re-reads the LOCAL
configs (line 177), returns `{}` when they lack the section (line 181), else
runs the loop over the given parser's keys — and then falls off the end of
the function, so the accumulated `config_dict` is discarded and Python
returns `None` (`Option.none` here); errors raised inside the loop still
propagate. -/
def MergedConfigParser._parse_config (m : MergedConfigParser)
    (configParser : RawConfigParser) :
    Except PyError (Option (List (String × ConfigValue))) := do
  let config := m.local_config
  if config.has_section m.program_name = false then
    .ok (some [])
  else do
    let names ← configParser.options m.program_name
    let _config_dict ← parseLoop m config names
    .ok none

/-- `MergedConfigParser.is_configured_by` (lines 207-209). -/
def MergedConfigParser.is_configured_by (m : MergedConfigParser)
    (config : RawConfigParser) : Bool :=
  config.has_section m.program_name

/-- `MergedConfigParser.parse_local_config` (lines 211-220): bare `return`
(Python `None`) when the local configs lack the section, else
`_parse_config(config)`. -/
def MergedConfigParser.parse_local_config (m : MergedConfigParser) :
    Except PyError (Option (List (String × ConfigValue))) :=
  let config := m.local_config
  if m.is_configured_by config = false then .ok none
  else m._parse_config config

/-- `MergedConfigParser.parse_user_config` (lines 222-231): bare `return`
(Python `None`) when the user config lacks the section, else
`_parse_config(config)`. -/
def MergedConfigParser.parse_user_config (m : MergedConfigParser) :
    Except PyError (Option (List (String × ConfigValue))) :=
  let config := m.user_config
  if m.is_configured_by config = false then .ok none
  else m._parse_config config

/-- Python `dict.setdefault(k, v)` on an insertion-ordered association list. -/
def setdefault (d : List (String × ConfigValue)) (k : String) (v : ConfigValue) :
    List (String × ConfigValue) :=
  if (d.lookup k).isSome then d else d ++ [(k, v)]

/-- `MergedConfigParser.parse` (lines 233-245): get both results, then
`for option, value in user_config.items(): config.setdefault(option, value)`
and return `config`. Iterating a Python `None` raises `AttributeError`; so
does `setdefault` on `None`, but only once the loop body runs. -/
def MergedConfigParser.parse (m : MergedConfigParser) :
    Except PyError (Option (List (String × ConfigValue))) := do
  let user_config ← m.parse_user_config
  let config ← m.parse_local_config
  match user_config with
  | none => .error (.attributeError "NoneType object has no attribute items")
  | some u =>
    match config with
    | none =>
      if u = [] then .ok none
      else .error (.attributeError "NoneType object has no attribute setdefault")
    | some c => .ok (some (u.foldl (fun d kv => setdefault d kv.1 kv.2) c))

example : config_name_of "--my-option" = "my_option" := by decide
example : config_name_of "--my-option-" = "my_option" := by decide
example : specConfigKey "--my-option-" = "my_option_" := by decide
example : common_ancestor [] ["/a/b", "/a/c"] = "/a" := by decide
example : common_ancestor [] ["/ab/x", "/ab2/y"] = "/ab" := by decide
example : specSharedDirAncestor [] ["/ab/x", "/ab2/y"] = "/" := by decide


/-! ## Helper lemmas -/

theorem except_bind_ok {ε α β : Type} (a : α) (f : α → Except ε β) :
    (Except.ok a : Except ε α) >>= f = f a := rfl

theorem except_bind_error {ε α β : Type} (e : ε) (f : α → Except ε β) :
    (Except.error e : Except ε α) >>= f = Except.error e := rfl

theorem dropWhile_getLast?_eq (p : Char → Bool) :
    ∀ l : List Char, l.dropWhile p ≠ [] →
      (l.dropWhile p).getLast? = l.getLast?
  | [], h => absurd rfl h
  | c :: rest, h => by
    by_cases hc : p c
    · have hrw : (c :: rest).dropWhile p = rest.dropWhile p := by
        simp [List.dropWhile, hc]
      rw [hrw] at h ⊢
      have hrest : rest ≠ [] := by
        intro hr
        rw [hr] at h
        simp at h
      rw [dropWhile_getLast?_eq p rest h]
      cases rest with
      | nil => exact absurd rfl hrest
      | cons b bs => simp [List.getLast?_cons_cons]
    · simp [List.dropWhile, hc]

theorem dropWhile_reverse_eq_self (p : Char → Bool) (l : List Char)
    (h : ∀ x, l.getLast? = some x → p x = false) :
    l.reverse.dropWhile p = l.reverse := by
  induction l using List.reverseRecOn with
  | nil => simp
  | append_singleton as a _ =>
    have ha : p a = false := h a (by simp)
    simp [List.dropWhile, ha]

theorem pyStripDashes_of_no_trailing_dash (l : List Char)
    (h : l.getLast? ≠ some '-') :
    pyStripDashes l = l.dropWhile (· = '-') := by
  unfold pyStripDashes
  rcases hd : l.dropWhile (· = '-') with _ | ⟨c, cs⟩
  · simp
  · have hne : l.dropWhile (· = '-') ≠ [] := by
      rw [hd]
      simp
    have hlast : (c :: cs).getLast? = l.getLast? := by
      rw [← hd]
      exact dropWhile_getLast?_eq _ l hne
    have h' : ∀ x, (c :: cs).getLast? = some x → (x = '-' : Bool) = false := by
      intro x hx
      rw [hlast] at hx
      have : x ≠ '-' := by
        intro hxe
        rw [hxe] at hx
        exact h hx
      exact decide_eq_false this
    rw [dropWhile_reverse_eq_self _ (c :: cs) h']
    exact List.reverse_reverse _

/-! ## C5, C6, C9: the Option layer -/

/-- C5: constructing an `Option` with `parse_from_config` set and no long flag
name raises a construction error (the source's `ValueError`), and with a
(non-empty) long flag name present construction succeeds. -/
theorem mkOption_requires_long_name_for_config (short : Option String)
    (long : String) (action default type dest : Option String) (csl : Bool) :
    (∃ msg, mkOption short none action default type dest true csl
        = Except.error (PyError.valueError msg)) ∧
    (long ≠ "" → ∃ o, mkOption short (some long) action default type dest true csl
        = Except.ok o) := by
  constructor
  · exact ⟨_, rfl⟩
  · intro hl
    refine ⟨{ short_option_name := short, long_option_name := some long,
              action := action, default := default, type := type, dest := dest,
              parse_from_config := true, comma_separated_list := csl,
              config_name := some (config_name_of long) }, ?_⟩
    unfold mkOption
    simp [pyTruthy, hl]

/-- C5 witness: at `parse_from_config = true`, construction with no long name
errors and with `--select` succeeds. -/
theorem mkOption_requires_long_name_for_config_witness :
    (∃ msg, mkOption none none none none none none true false
        = Except.error (PyError.valueError msg)) ∧
    (∃ o, mkOption none (some "--select") none none none none true false
        = Except.ok o) :=
  ⟨(mkOption_requires_long_name_for_config none "--select" none none none none
      false).1,
   (mkOption_requires_long_name_for_config none "--select" none none none none
      false).2 (by decide)⟩

/-- C6 counterexample: for the config-eligible long name `--my-option-` the
source derives `my_option` (Python `strip('-')` removes trailing dashes too),
while stripping exactly the leading dashes and replacing the remaining dashes
yields `my_option_`. -/
theorem config_name_trailing_dash_differs :
    (mkOption none (some "--my-option-") none none none none true false).map
        (fun o => o.config_name) = Except.ok (some "my_option") ∧
    specConfigKey "--my-option-" = "my_option_" ∧
    config_name_of "--my-option-" ≠ specConfigKey "--my-option-" :=
  ⟨rfl, by decide, by decide⟩

/-- C6 (amended): the derived config-key name equals the long flag name with
leading AND trailing dashes stripped and every remaining dash replaced by an
underscore; when the long name does not end in a dash this coincides with the
spec's leading-dashes-only formula (`--my-option` derives `my_option`), and
the key is derived once at construction. -/
theorem config_name_strips_trailing_dashes_too (s : String)
    (h : s.toList.getLast? ≠ some '-') :
    (config_name_of s = specConfigKey s ∧
     config_name_of "--my-option" = "my_option") ∧
    ∀ short action default type dest : Option String, ∀ csl : Bool,
      ∀ o : Flake8Option,
      mkOption short (some s) action default type dest true csl = Except.ok o →
      o.config_name = some (config_name_of s) := by
  refine ⟨⟨?_, by decide⟩, ?_⟩
  · unfold config_name_of specConfigKey
    rw [pyStripDashes_of_no_trailing_dash s.toList h]
  · intro short action default type dest csl o hmk
    unfold mkOption at hmk
    by_cases hs : pyTruthy (some s) = false
    · simp [hs] at hmk
    · simp [hs] at hmk
      rw [← hmk]

/-- C6 witness: the amendment applied to the long name `--my-option`. -/
theorem config_name_strips_trailing_dashes_too_witness :
    config_name_of "--my-option" = specConfigKey "--my-option" ∧
    config_name_of "--my-option" = "my_option" :=
  ⟨((config_name_strips_trailing_dashes_too "--my-option" (by decide)).1).1,
   ((config_name_strips_trailing_dashes_too "--my-option" (by decide)).1).2⟩

/-- C9: an `Option` constructed with `parse_from_config` left false never has
the `config_name` attribute set (modelled as the field being `none`): the
derived config key exists only on config-eligible options. -/
theorem mkOption_without_parse_from_config_has_no_config_name
    (short long action default type dest : Option String) (csl : Bool) :
    ∃ o, mkOption short long action default type dest false csl = Except.ok o ∧
      o.config_name = none :=
  ⟨_, rfl, rfl⟩

/-! ## C1, C2, C3, C10: the merge engine

Shape lemmas first: `_parse_config` can only produce `{}` (when the local
configs lack the section) or Python `None` (its final fall-through), so the
wrappers never produce a non-trivial mapping and `parse` never merges one. -/

/-- The `ignore` option as registered config-eligible with a plain string
value. -/
def ignoreOption : Flake8Option :=
  { short_option_name := none, long_option_name := some "--ignore",
    action := none, default := none, type := none, dest := none,
    parse_from_config := true, comma_separated_list := false,
    config_name := some "ignore" }

/-- State where both the local and the user configuration carry a `[flake8]`
section setting the registered key `ignore` (local `E1`, user `E2`). -/
def bothSectionsState : MergedConfigParser :=
  { program_name := "flake8",
    config_options := [("ignore", ignoreOption)],
    local_config := ⟨[("flake8", [("ignore", "E1")])]⟩,
    user_config := ⟨[("flake8", [("ignore", "E2")])]⟩ }

/-- State where neither configuration has a `[flake8]` section. -/
def noSectionState : MergedConfigParser :=
  { program_name := "flake8", config_options := [],
    local_config := ⟨[]⟩, user_config := ⟨[]⟩ }

/-- State with a valid local `[flake8]` section and no user section. -/
def localOnlySectionState : MergedConfigParser :=
  { program_name := "flake8", config_options := [],
    local_config := ⟨[("flake8", [("unknown_key", "1")])]⟩,
    user_config := ⟨[]⟩ }

/-- State where the given (user) config sets `ignore` but the local section,
though present, does not. -/
def mismatchState : MergedConfigParser :=
  { program_name := "flake8",
    config_options := [("ignore", ignoreOption)],
    local_config := ⟨[("flake8", [])]⟩,
    user_config := ⟨[("flake8", [("ignore", "E2")])]⟩ }

/-- State where the given (user) config has the section but the local configs
do not. -/
def localAbsentState : MergedConfigParser :=
  { program_name := "flake8",
    config_options := [("ignore", ignoreOption)],
    local_config := ⟨[]⟩,
    user_config := ⟨[("flake8", [("ignore", "E2")])]⟩ }

theorem _parse_config_cases (m : MergedConfigParser) (c : RawConfigParser)
    (h : m.local_config.has_section m.program_name = true) :
    m._parse_config c = Except.ok none ∨
      ∃ e, m._parse_config c = Except.error e := by
  have hdef : m._parse_config c =
      if m.local_config.has_section m.program_name = false then
        Except.ok (some [])
      else
        (c.options m.program_name >>= fun names =>
          parseLoop m m.local_config names >>= fun _ => Except.ok none) := rfl
  rw [hdef, h, if_neg (by decide : ¬(true = false))]
  cases ho : c.options m.program_name with
  | error e => exact Or.inr ⟨e, by rw [except_bind_error]⟩
  | ok names =>
    rw [except_bind_ok]
    cases hp : parseLoop m m.local_config names with
    | error e => exact Or.inr ⟨e, by rw [except_bind_error]⟩
    | ok d => exact Or.inl (by rw [except_bind_ok])

theorem parse_local_config_cases (m : MergedConfigParser) :
    m.parse_local_config = Except.ok none ∨
      ∃ e, m.parse_local_config = Except.error e := by
  have hdef : m.parse_local_config =
      if m.local_config.has_section m.program_name = false then Except.ok none
      else m._parse_config m.local_config := rfl
  rw [hdef]
  cases h : m.local_config.has_section m.program_name with
  | false => simp
  | true =>
    rw [if_neg (by decide : ¬(true = false))]
    exact _parse_config_cases m m.local_config h

/-- C1: the merge of lines 233-245 is unreachable with a real mapping —
`parse()` either returns Python `None` or raises, never a merged mapping, for
EVERY state; in particular the claimed local-over-user combined mapping is
never produced. -/
theorem parse_never_returns_mapping (m : MergedConfigParser) :
    m.parse = Except.ok none ∨ ∃ e, m.parse = Except.error e := by
  unfold MergedConfigParser.parse
  cases hu : m.parse_user_config with
  | error e =>
    exact Or.inr ⟨e, by rw [except_bind_error]⟩
  | ok user =>
    rw [except_bind_ok]
    rcases parse_local_config_cases m with hl | ⟨e, hl⟩
    · rw [hl, except_bind_ok]
      cases user with
      | none => exact Or.inr ⟨_, rfl⟩
      | some u =>
        by_cases hemp : u = []
        · subst hemp
          exact Or.inl rfl
        · exact Or.inr
            ⟨PyError.attributeError "NoneType object has no attribute setdefault",
             by simp [hemp]⟩
    · rw [hl, except_bind_error]
      exact Or.inr ⟨e, rfl⟩

/-- C2: with no `[flake8]` section in either configuration, `parse()` does
not return an empty mapping — it raises `AttributeError` iterating over the
`None` that `parse_user_config` returned. -/
theorem parse_raises_when_no_sections (m : MergedConfigParser)
    (hl : m.local_config.has_section m.program_name = false)
    (hu : m.user_config.has_section m.program_name = false) :
    m.parse = Except.error
      (PyError.attributeError "NoneType object has no attribute items") := by
  have h1 : m.parse_user_config = .ok none := by
    unfold MergedConfigParser.parse_user_config MergedConfigParser.is_configured_by
    simp [hu]
  have h2 : m.parse_local_config = .ok none := by
    unfold MergedConfigParser.parse_local_config MergedConfigParser.is_configured_by
    simp [hl]
  unfold MergedConfigParser.parse
  rw [h1, h2]
  rfl

/-- C2 witness: the state with no sections anywhere makes `parse()` raise. -/
theorem parse_raises_when_no_sections_witness :
    noSectionState.parse = Except.error
      (PyError.attributeError "NoneType object has no attribute items") :=
  parse_raises_when_no_sections noSectionState (by decide) (by decide)

/-- C3: the filter+coerce step does not read the given config: with the local
section present but missing the given config's registered key `ignore` it
raises `NoOptionError` on the LOCAL config; with the local section absent it
returns `{}` without iterating the given config at all; and when it does
iterate it discards the accumulated mapping, returning Python `None` instead
of the config-key → value dict. -/
theorem parse_config_reads_local_and_drops_result :
    mismatchState._parse_config mismatchState.user_config
      = Except.error (PyError.noOptionError "flake8" "ignore") ∧
    localAbsentState._parse_config localAbsentState.user_config
      = Except.ok (some []) ∧
    bothSectionsState._parse_config bothSectionsState.user_config
      = Except.ok none :=
  ⟨rfl, rfl, rfl⟩

/-- C10: whenever the user configuration lacks the `[flake8]` section,
`parse_user_config` returns Python `None` (not a mapping), and `parse()`,
always fails — with `AttributeError` iterating that `None` whenever its
preceding local parse ran without raising — regardless of a valid local
section. -/
theorem parse_user_config_none_crashes_parse (m : MergedConfigParser)
    (hu : m.user_config.has_section m.program_name = false) :
    m.parse_user_config = Except.ok none ∧
    (∃ e, m.parse = Except.error e) ∧
    ∀ r, m.parse_local_config = Except.ok r →
      m.parse = Except.error
        (PyError.attributeError "NoneType object has no attribute items") := by
  have h1 : m.parse_user_config = .ok none := by
    unfold MergedConfigParser.parse_user_config MergedConfigParser.is_configured_by
    simp [hu]
  have hmain : ∀ r, m.parse_local_config = Except.ok r →
      m.parse = Except.error
        (PyError.attributeError "NoneType object has no attribute items") := by
    intro r hr
    unfold MergedConfigParser.parse
    rw [h1, hr]
    rfl
  refine ⟨h1, ?_, hmain⟩
  cases hl : m.parse_local_config with
  | error e =>
    refine ⟨e, ?_⟩
    unfold MergedConfigParser.parse
    rw [h1, hl]
    rfl
  | ok r => exact ⟨_, hmain r hl⟩

/-- C10 witness: with a populated local `[flake8]` section and a user config
with no section, `parse_user_config` yields `None` and `parse()` raises. -/
theorem parse_user_config_none_crashes_parse_witness :
    localOnlySectionState.parse_user_config = Except.ok none ∧
    localOnlySectionState.parse = Except.error
      (PyError.attributeError "NoneType object has no attribute items") :=
  ⟨(parse_user_config_none_crashes_parse localOnlySectionState (by decide)).1,
   (parse_user_config_none_crashes_parse localOnlySectionState (by decide)).2.2
     none rfl⟩

/-! ## C4: the config loader -/

/-- C4 counterexample: a present file the parser cannot parse makes the read
operation raise a parsing error instead of omitting the path. -/
theorem read_config_raises_on_malformed :
    _read_config [("/x", FileContent.malformed)] ["/x"]
      = Except.error (PyError.parsingError "/x") := rfl

theorem readFiles_no_malformed (fs : FileSystem) :
    ∀ (paths : List String) (cfg : RawConfigParser) (found : List String),
    (∀ p ∈ paths, fs.lookup p ≠ some FileContent.malformed) →
    ∃ c fnd, readFiles fs cfg found paths = Except.ok (c, fnd) ∧
      fnd = found ++ paths.filter (fun p => (fs.lookup p).isSome) ∧
      ((∀ p ∈ paths, fs.lookup p = none) → c = cfg ∧ fnd = found)
  | [], cfg, found, _ =>
    ⟨cfg, found, rfl, by simp, fun _ => ⟨rfl, by simp⟩⟩
  | p :: rest, cfg, found, h => by
    have hrest : ∀ q ∈ rest, fs.lookup q ≠ some FileContent.malformed :=
      fun q hq => h q (List.mem_cons_of_mem p hq)
    cases hp : fs.lookup p with
    | none =>
      obtain ⟨c, fnd, h1, h2, h3⟩ := readFiles_no_malformed fs rest cfg found hrest
      refine ⟨c, fnd, ?_, ?_, ?_⟩
      · simp only [readFiles, hp]
        exact h1
      · rw [h2]
        simp [List.filter_cons, hp]
      · intro hall
        exact h3 (fun q hq => hall q (List.mem_cons_of_mem p hq))
    | some fc =>
      cases fc with
      | malformed => exact absurd hp (h p (List.mem_cons_self p rest))
      | ini secs =>
        obtain ⟨c, fnd, h1, h2, h3⟩ :=
          readFiles_no_malformed fs rest (mergeSections cfg secs) (found ++ [p])
            hrest
        refine ⟨c, fnd, ?_, ?_, ?_⟩
        · simp only [readFiles, hp]
          exact h1
        · rw [h2]
          simp [List.filter_cons, hp]
        · intro hall
          have := hall p (List.mem_cons_self p rest)
          rw [hp] at this
          exact absurd this (by simp)

/-- C4 (amended): the read operation omits paths that do not exist from
`found_paths` and never raises as long as no present file is malformed — in
particular it returns an empty but valid parsed config and an empty
found-list when every path is missing; a present file that fails to parse,
however, raises a parsing error. -/
theorem read_config_skips_missing (fs : FileSystem) (paths : List String)
    (h : ∀ p ∈ paths, fs.lookup p ≠ some FileContent.malformed) :
    ∃ c found, _read_config fs paths = Except.ok (c, found) ∧
      found = paths.filter (fun p => (fs.lookup p).isSome) ∧
      ((∀ p ∈ paths, fs.lookup p = none) →
        c = emptyRawConfigParser ∧ found = []) := by
  obtain ⟨c, fnd, h1, h2, h3⟩ :=
    readFiles_no_malformed fs paths emptyRawConfigParser [] h
  exact ⟨c, fnd, h1, by simpa using h2, h3⟩

/-- C4 witness: reading the single nonexistent path `/nonexistent` on an
empty filesystem. -/
theorem read_config_skips_missing_witness :
    ∃ c found, _read_config [] ["/nonexistent"] = Except.ok (c, found) ∧
      found = ["/nonexistent"].filter
        (fun p => (([] : FileSystem).lookup p).isSome) ∧
      ((∀ p ∈ ["/nonexistent"], ([] : FileSystem).lookup p = none) →
        c = emptyRawConfigParser ∧ found = []) :=
  read_config_skips_missing [] ["/nonexistent"] (by decide)

/-! ## C8: the common ancestor -/

theorem lcpChars_prefix_left : ∀ a b : List Char, lcpChars a b <+: a
  | [], _ => by simp [lcpChars]
  | _ :: _, [] => by simp [lcpChars]
  | x :: xs, y :: ys => by
    by_cases hxy : x = y
    · subst hxy
      simp only [lcpChars, if_pos rfl]
      exact List.cons_prefix_cons.mpr ⟨rfl, lcpChars_prefix_left xs ys⟩
    · simp [lcpChars, hxy]

theorem lcpChars_prefix_right : ∀ a b : List Char, lcpChars a b <+: b
  | [], _ => by simp [lcpChars]
  | _ :: _, [] => by simp [lcpChars]
  | x :: xs, y :: ys => by
    by_cases hxy : x = y
    · subst hxy
      simp only [lcpChars, if_pos rfl]
      exact List.cons_prefix_cons.mpr ⟨rfl, lcpChars_prefix_right xs ys⟩
    · simp [lcpChars, hxy]

theorem prefix_lcpChars : ∀ (q a b : List Char), q <+: a → q <+: b →
    q <+: lcpChars a b
  | [], _, _, _, _ => List.nil_prefix
  | x :: q', a, b, ha, hb => by
    rcases a with _ | ⟨xa, as⟩
    · simp at ha
    rcases b with _ | ⟨xb, bs⟩
    · simp at hb
    rw [List.cons_prefix_cons] at ha hb
    obtain ⟨rfl, ha'⟩ := ha
    obtain ⟨hx, hb'⟩ := hb
    simp only [lcpChars, if_pos hx]
    exact List.cons_prefix_cons.mpr ⟨rfl, prefix_lcpChars q' as bs ha' hb'⟩

theorem foldl_lcp_prefix_acc (rest : List String) :
    ∀ acc : List Char,
      (rest.foldl (fun acc q => lcpChars acc q.toList) acc) <+: acc := by
  induction rest with
  | nil => intro acc; simp
  | cons r rs ih =>
    intro acc
    simp only [List.foldl_cons]
    exact (ih (lcpChars acc r.toList)).trans (lcpChars_prefix_left acc r.toList)

theorem foldl_lcp_prefix_mem (rest : List String) :
    ∀ (acc : List Char), ∀ a ∈ rest,
      (rest.foldl (fun acc q => lcpChars acc q.toList) acc) <+: a.toList := by
  induction rest with
  | nil => intro acc a ha; simp at ha
  | cons r rs ih =>
    intro acc a ha
    simp only [List.foldl_cons]
    rcases List.mem_cons.mp ha with rfl | ha'
    · exact (foldl_lcp_prefix_acc rs _).trans (lcpChars_prefix_right acc a.toList)
    · exact ih _ a ha'

theorem prefix_foldl_lcp (rest : List String) :
    ∀ (acc q : List Char), q <+: acc → (∀ a ∈ rest, q <+: a.toList) →
      q <+: rest.foldl (fun acc q => lcpChars acc q.toList) acc := by
  induction rest with
  | nil => intro acc q h _; simpa using h
  | cons r rs ih =>
    intro acc q hacc hall
    simp only [List.foldl_cons]
    exact ih _ q
      (prefix_lcpChars q acc r.toList hacc (hall r (List.mem_cons_self r rs)))
      (fun a ha => hall a (List.mem_cons_of_mem r ha))

/-- C8 counterexample: for the inputs `/ab/x` and `/ab2/y` the source computes
`/ab` (a character-wise prefix), while the longest shared path (directory)
prefix of the two inputs is the root `/`: the two disagree. -/
theorem common_ancestor_not_dir_ancestor :
    common_ancestor [] ["/ab/x", "/ab2/y"] = "/ab" ∧
    specSharedDirAncestor [] ["/ab/x", "/ab2/y"] = "/" ∧
    common_ancestor [] ["/ab/x", "/ab2/y"]
      ≠ specSharedDirAncestor [] ["/ab/x", "/ab2/y"] :=
  ⟨by decide, by decide, by decide⟩

/-- C8 (amended): for non-empty input the ancestor is the absolute form of
the longest common CHARACTER-WISE string prefix of the input paths (which is
a common string prefix of every input and the longest such); the empty list
defaults to the current directory, and the example `["/a/b", "/a/c"]` still
yields `/a`. -/
theorem common_ancestor_string_prefix_spec (cwd : List String)
    (args : List String) (h : args ≠ []) :
    (common_ancestor cwd args = abspath cwd (commonPrefixStr args) ∧
     (∀ a ∈ args, (commonPrefixStr args).toList <+: a.toList) ∧
     (∀ q : String, (∀ a ∈ args, q.toList <+: a.toList) →
        q.toList <+: (commonPrefixStr args).toList)) ∧
    common_ancestor cwd [] = abspath cwd "." ∧
    common_ancestor [] ["/a/b", "/a/c"] = "/a" := by
  refine ⟨⟨?_, ?_, ?_⟩, ?_, by decide⟩
  · unfold common_ancestor abspath
    rw [if_neg h]
  · rcases args with _ | ⟨p, rest⟩
    · exact absurd rfl h
    intro a ha
    rcases List.mem_cons.mp ha with rfl | ha'
    · exact foldl_lcp_prefix_acc rest a.toList
    · exact foldl_lcp_prefix_mem rest p.toList a ha'
  · rcases args with _ | ⟨p, rest⟩
    · exact absurd rfl h
    intro q hall
    exact prefix_foldl_lcp rest p.toList q.toList
      (hall p (List.mem_cons_self p rest))
      (fun a ha => hall a (List.mem_cons_of_mem p ha))
  · have hdot : commonPrefixStr ["."] = "." := by decide
    unfold common_ancestor abspath
    rw [if_pos rfl, hdot]

/-- C8 witness: the amendment at the inputs `/a/b` and `/a/c`, whose
character-wise common prefix resolves to `/a`. -/
theorem common_ancestor_string_prefix_spec_witness :
    common_ancestor [] ["/a/b", "/a/c"]
        = abspath [] (commonPrefixStr ["/a/b", "/a/c"]) ∧
    common_ancestor [] ["/a/b", "/a/c"] = "/a" :=
  ⟨((common_ancestor_string_prefix_spec [] ["/a/b", "/a/c"] (by decide)).1).1,
   (common_ancestor_string_prefix_spec [] ["/a/b", "/a/c"] (by decide)).2.2⟩

/-! ## C7: the upward directory walk -/

/-- The spec-side expansion of the walk: for each directory of the given
chain, the given filenames paired with that directory, in order. -/
def perAncestorFiles (fns : List String) : List (List String) →
    List (List String × String)
  | [] => []
  | d :: rest => fns.map (fun f => (d, f)) ++ perAncestorFiles fns rest

theorem mem_of_getLast?_some {α : Type} :
    ∀ (l : List α) (c : α), l.getLast? = some c → c ∈ l
  | [], _, h => by simp at h
  | [a], c, h => by
    simp only [List.getLast?_singleton, Option.some.injEq] at h
    simp [h]
  | a :: b :: bs, c, h => by
    rw [List.getLast?_cons_cons] at h
    exact List.mem_cons_of_mem a (mem_of_getLast?_some (b :: bs) c h)

theorem mem_foldl_norm :
    ∀ (cs acc : List String) (x : String),
      x ∈ cs.foldl (fun acc c =>
        if c = "." then acc
        else if c = ".." then acc.dropLast
        else acc ++ [c]) acc →
      x ∈ acc ∨ x ∈ cs
  | [], acc, x, h => Or.inl (by simpa using h)
  | c :: rest, acc, x, h => by
    simp only [List.foldl_cons] at h
    rcases mem_foldl_norm rest _ x h with h' | h'
    · by_cases hc : c = "."
      · rw [if_pos hc] at h'
        exact Or.inl h'
      · rw [if_neg hc] at h'
        by_cases hc2 : c = ".."
        · rw [if_pos hc2] at h'
          exact Or.inl (List.mem_of_mem_dropLast h')
        · rw [if_neg hc2] at h'
          rcases List.mem_append.mp h' with h'' | h''
          · exact Or.inl h''
          · simp only [List.mem_singleton] at h''
            subst h''
            exact Or.inr (List.mem_cons_self x rest)
    · exact Or.inr (List.mem_cons_of_mem c h')

theorem mem_splitPath_ne_empty (s x : String) (h : x ∈ splitPath s) :
    x ≠ "" := by
  unfold splitPath at h
  have h2 := List.mem_filter.mp h
  simpa using h2.2

theorem abspathComps_ne_empty (cwd : List String) (p : String)
    (hcwd : ∀ c ∈ cwd, c ≠ "") :
    ∀ x ∈ abspathComps cwd p, x ≠ "" := by
  intro x hx
  unfold abspathComps normComponents at hx
  by_cases hp : p.toList.head? = some '/'
  · rw [if_pos hp] at hx
    rcases mem_foldl_norm (splitPath p) [] x hx with h' | h'
    · simp at h'
    · exact mem_splitPath_ne_empty p x h'
  · rw [if_neg hp] at hx
    rcases mem_foldl_norm (cwd ++ splitPath p) [] x hx with h' | h'
    · simp at h'
    · rcases List.mem_append.mp h' with h'' | h''
      · exact hcwd x h''
      · exact mem_splitPath_ne_empty p x h''

theorem renderAbs_ne_empty (cs : List String) : renderAbs cs ≠ "" := by
  unfold renderAbs
  by_cases h : cs = []
  · rw [if_pos h]
    decide
  · rw [if_neg h]
    intro he
    have h2 : ("/" ++ String.intercalate "/" cs).toList = "".toList :=
      congrArg String.toList he
    simp at h2

theorem ancestorsOf_length_le (p : List String) :
    ∀ d ∈ ancestorsOf p, d.length ≤ p.length := by
  rw [ancestorsOf]
  by_cases hp : p = []
  · rw [if_pos hp]
    intro d hd
    simp only [List.mem_singleton] at hd
    simp [hd, hp]
  · rw [if_neg hp]
    intro d hd
    rcases List.mem_cons.mp hd with rfl | hd'
    · exact le_refl _
    · have h1 := ancestorsOf_length_le p.dropLast d hd'
      have h2 := List.length_dropLast p
      omega
termination_by p.length
decreasing_by
  have h3 := List.length_pos.mpr hp
  have h4 := List.length_dropLast p
  omega

theorem ancestorsOf_nodup (p : List String) : (ancestorsOf p).Nodup := by
  rw [ancestorsOf]
  by_cases hp : p = []
  · rw [if_pos hp]
    simp
  · rw [if_neg hp]
    refine List.nodup_cons.mpr ⟨?_, ancestorsOf_nodup p.dropLast⟩
    intro hmem
    have h1 := ancestorsOf_length_le p.dropLast p hmem
    have h2 := List.length_dropLast p
    have h3 := List.length_pos.mpr hp
    omega
termination_by p.length
decreasing_by
  have h3 := List.length_pos.mpr hp
  have h4 := List.length_dropLast p
  omega

theorem self_mem_ancestorsOf (p : List String) : p ∈ ancestorsOf p := by
  rw [ancestorsOf]
  by_cases hp : p = []
  · rw [if_pos hp]
    simp [hp]
  · rw [if_neg hp]
    exact List.mem_cons_self p _

theorem nil_mem_ancestorsOf (p : List String) : [] ∈ ancestorsOf p := by
  rw [ancestorsOf]
  by_cases hp : p = []
  · rw [if_pos hp]
    simp
  · rw [if_neg hp]
    exact List.mem_cons_of_mem p (nil_mem_ancestorsOf p.dropLast)
termination_by p.length
decreasing_by
  have h3 := List.length_pos.mpr hp
  have h4 := List.length_dropLast p
  omega

theorem genLocalConfigFiles_eq_perAncestor (fns : List String)
    (parent : List String) (tail : String) (htail : tail ≠ "")
    (hcomp : ∀ c ∈ parent, c ≠ "") :
    genLocalConfigFiles fns parent tail
      = perAncestorFiles fns (ancestorsOf parent) := by
  rw [genLocalConfigFiles, if_neg htail]
  rcases hl : parent.getLast? with _ | c
  · have hnil : parent = [] := List.getLast?_eq_none_iff.mp hl
    subst hnil
    rw [ancestorsOf]
    rw [if_pos rfl]
    rw [show splitAbs ([] : List String) = ([], "") from rfl]
    rw [genLocalConfigFiles]
    simp [perAncestorFiles]
  · have hne : parent ≠ [] := by
      intro hn
      rw [hn] at hl
      simp at hl
    have hc : c ≠ "" := hcomp c (mem_of_getLast?_some parent c hl)
    have hsplit : splitAbs parent = (parent.dropLast, c) := by
      unfold splitAbs
      rw [hl]
    rw [hsplit]
    rw [genLocalConfigFiles_eq_perAncestor fns parent.dropLast c hc
      (fun x hx => hcomp x (List.mem_of_mem_dropLast hx))]
    have hanc : ancestorsOf parent = parent :: ancestorsOf parent.dropLast := by
      rw [ancestorsOf, if_neg hne]
    rw [hanc]
    simp [perAncestorFiles]
termination_by parent.length
decreasing_by
  have h3 := List.length_pos.mpr hne
  have h4 := List.length_dropLast parent
  omega

/-- C7: for every constructed `ConfigFileFinder` (current directory given as
normalised non-empty components), the local candidate sequence is a finite
list that pairs each directory of the ancestor chain — from the common
ancestor up to and including the root — with exactly `setup.cfg`, `tox.ini`,
`.<program_name>` in that fixed order, visiting each ancestor once (the chain
is duplicate-free) and terminating after the root. -/
theorem generate_possible_local_config_files_spec (is_windows : Bool)
    (xdg_home : String) (cwd : List String) (program_name : String)
    (args : List String) (hcwd : ∀ c ∈ cwd, c ≠ "") :
    (mkConfigFileFinder is_windows xdg_home cwd program_name
        args).generate_possible_local_config_files
      = perAncestorFiles ["setup.cfg", "tox.ini", "." ++ program_name]
          (ancestorsOf (mkConfigFileFinder is_windows xdg_home cwd program_name
            args).parent) ∧
    (ancestorsOf (mkConfigFileFinder is_windows xdg_home cwd program_name
      args).parent).Nodup ∧
    (mkConfigFileFinder is_windows xdg_home cwd program_name args).parent
      ∈ ancestorsOf (mkConfigFileFinder is_windows xdg_home cwd program_name
          args).parent ∧
    [] ∈ ancestorsOf (mkConfigFileFinder is_windows xdg_home cwd program_name
      args).parent := by
  refine ⟨?_, ancestorsOf_nodup _, self_mem_ancestorsOf _, nil_mem_ancestorsOf _⟩
  exact genLocalConfigFiles_eq_perAncestor
    ["setup.cfg", "tox.ini", "." ++ program_name]
    (abspathComps cwd (commonPrefixStr (if args = [] then ["."] else args)))
    (renderAbs (abspathComps cwd
      (commonPrefixStr (if args = [] then ["."] else args))))
    (renderAbs_ne_empty _)
    (abspathComps_ne_empty cwd _ hcwd)

/-- C7 witness: the finder built over `cwd = /` for the single input path
`/a/b` and program name `flake8`. -/
theorem generate_possible_local_config_files_spec_witness :
    (mkConfigFileFinder false "/root/.config" [] "flake8"
        ["/a/b"]).generate_possible_local_config_files
      = perAncestorFiles ["setup.cfg", "tox.ini", "." ++ "flake8"]
          (ancestorsOf (mkConfigFileFinder false "/root/.config" [] "flake8"
            ["/a/b"]).parent) ∧
    (ancestorsOf (mkConfigFileFinder false "/root/.config" [] "flake8"
      ["/a/b"]).parent).Nodup ∧
    (mkConfigFileFinder false "/root/.config" [] "flake8" ["/a/b"]).parent
      ∈ ancestorsOf (mkConfigFileFinder false "/root/.config" [] "flake8"
          ["/a/b"]).parent ∧
    [] ∈ ancestorsOf (mkConfigFileFinder false "/root/.config" [] "flake8"
      ["/a/b"]).parent :=
  generate_possible_local_config_files_spec false "/root/.config" [] "flake8"
    ["/a/b"] (by decide)
